import Mathlib

/-!
# Verification of the pymodoro timing core

A shallow embedding of the timing core of the pymodoro repository:

* `Period` / `CountdownTimer` from `widgets/countdown_timer/timer.py`,
* `TimeSpentWindowed` (the window aggregator) from
  `widgets/countdown_timer/time_spent.py`,
* `EventStore` / `StateStore` from `pymodoro_state.py`.

The Python `time.monotonic()` clock is made an explicit parameter `now : ℚ`
of every operation that reads it; `float` values are modelled as rationals.
File contents are modelled at the parsed level (the sequence of records a
file holds), since none of the properties below concern byte-level JSON
encoding.
-/

namespace Pymodoro

/-! ## Period (`timer.py`, class `Period`) -/

/-- Source `Period.__init__`: `self._start = self._end = 0.0`. -/
structure Period where
  _start : ℚ
  _end : ℚ
deriving DecidableEq, Repr

/-- A freshly constructed `Period()`. -/
def Period.init : Period := ⟨0, 0⟩

/-- Source `Period.start`: `self._start = self._end = monotonic()`. -/
def Period.start (_p : Period) (now : ℚ) : Period := ⟨now, now⟩

/-- Source `Period.stop`: remembers `_start`, zeroes both fields, and returns
`monotonic() - start`.  Note the source has no guard for an unopened
period: in that case `_start = 0` and the returned value is `now - 0`. -/
def Period.stop (p : Period) (now : ℚ) : Period × ℚ :=
  (⟨0, 0⟩, now - p._start)

/-- Source `Period.elapsed` (property): if `self._start` is truthy the period is
running and `self._end` is refreshed to `monotonic()`; the returned value is
`self._end - self._start`.  The refreshed state is returned explicitly. -/
def Period.elapsed (p : Period) (now : ℚ) : Period × ℚ :=
  let p' := if p._start ≠ 0 then { p with _end := now } else p
  (p', p'._end - p'._start)

/-- The value `Period.elapsed` returns at clock time `now`. -/
def Period.elapsedVal (p : Period) (now : ℚ) : ℚ :=
  (p.elapsed now).2

/-! ## CountdownTimer (`timer.py`, class `CountdownTimer`) -/

/-- Source `CountdownTimer.__init__(initial_seconds=25 * 60.0)`. -/
structure CountdownTimer where
  initial_seconds : ℚ
  _active : Bool
  _elapsed : ℚ
  period : Period
deriving DecidableEq, Repr

/-- A freshly constructed `CountdownTimer()` (default 25 minutes). -/
def CountdownTimer.init : CountdownTimer :=
  { initial_seconds := 25 * 60
    _active := false
    _elapsed := 0
    period := Period.init }

/-- Source `CountdownTimer.is_active` (property): `return self._active`. -/
def CountdownTimer.is_active (ct : CountdownTimer) : Bool := ct._active

/-- Source `CountdownTimer.total_elapsed` (property):
`return self._elapsed + self.period.elapsed`, with the `Period.elapsed`
side effect on `_end` made explicit. -/
def CountdownTimer.total_elapsed (ct : CountdownTimer) (now : ℚ) :
    CountdownTimer × ℚ :=
  let pe := ct.period.elapsed now
  ({ ct with period := pe.1 }, ct._elapsed + pe.2)

/-- The value of the `total_elapsed` property at clock time `now`. -/
def CountdownTimer.total_elapsedVal (ct : CountdownTimer) (now : ℚ) : ℚ :=
  ct._elapsed + ct.period.elapsedVal now

/-- Source `CountdownTimer.remaining` (property):
`return max(0.0, self.initial_seconds - self.total_elapsed)`. -/
def CountdownTimer.remaining (ct : CountdownTimer) (now : ℚ) :
    CountdownTimer × ℚ :=
  let te := ct.total_elapsed now
  (te.1, max 0 (ct.initial_seconds - te.2))

/-- The value of the `remaining` property at clock time `now`. -/
def CountdownTimer.remainingVal (ct : CountdownTimer) (now : ℚ) : ℚ :=
  max 0 (ct.initial_seconds - ct.total_elapsedVal now)

/-- Source `CountdownTimer.start`: `if self._active or not self.remaining: return
False`, else activate, open the period and return `True`.  Python's `or`
short-circuits, so `remaining` (and its `_end` refresh) is only computed
when `_active` is false; `not x` on a float is `x == 0.0`. -/
def CountdownTimer.start (ct : CountdownTimer) (now : ℚ) :
    CountdownTimer × Bool :=
  if ct._active then (ct, false)
  else
    let r := ct.remaining now
    if r.2 = 0 then (r.1, false)
    else
      ({ r.1 with
          _active := true
          period := r.1.period.start now }, true)

/-- Source `CountdownTimer.stop`: `if not self._active: return 0.0`, else close
the period, accumulate its duration into `_elapsed`, deactivate, and
return the duration. -/
def CountdownTimer.stop (ct : CountdownTimer) (now : ℚ) :
    CountdownTimer × ℚ :=
  if !ct._active then (ct, 0)
  else
    let ps := ct.period.stop now
    ({ ct with
        period := ps.1
        _elapsed := ct._elapsed + ps.2
        _active := false }, ps.2)

/-- Source `CountdownTimer.reset`: `self._elapsed = 0.0; return self.period.stop()`.
Note the source does not touch `self._active`. -/
def CountdownTimer.reset (ct : CountdownTimer) (now : ℚ) :
    CountdownTimer × ℚ :=
  let ps := ct.period.stop now
  ({ ct with
      _elapsed := 0
      period := ps.1 }, ps.2)

/-- Source `CountdownTimer.dump_state`: the dict
`{initial_seconds, total_elapsed}`, reading the `total_elapsed` property
(with its state refresh made explicit). -/
def CountdownTimer.dump_state (ct : CountdownTimer) (now : ℚ) :
    CountdownTimer × (ℚ × ℚ) :=
  let te := ct.total_elapsed now
  (te.1, (ct.initial_seconds, te.2))

/-- Source `CountdownTimer.from_state`: `cls()` then `setattr` for each key:
`initial_seconds` is a plain attribute and `total_elapsed`'s setter writes
`self._elapsed = v`. -/
def CountdownTimer.from_state (st : ℚ × ℚ) : CountdownTimer :=
  { CountdownTimer.init with
      initial_seconds := st.1
      _elapsed := st.2 }

/-! ## Operation traces over a `CountdownTimer` -/

/-- The operations the UI layer drives the timer with (besides `reset`):
`start`, `stop`, and a read of the `total_elapsed` property (which
refreshes the open period's `_end`). -/
inductive TimerOp where
  | start
  | stop
  | read
deriving DecidableEq, Repr

/-- One operation applied at a given monotonic clock time, keeping the
resulting state and discarding the returned value. -/
def TimerStep (ct : CountdownTimer) (a : TimerOp × ℚ) : CountdownTimer :=
  match a.1 with
  | .start => (ct.start a.2).1
  | .stop => (ct.stop a.2).1
  | .read => (ct.total_elapsed a.2).1

/-- A whole sequence of timer operations, applied left to right. -/
def runTimer (ct : CountdownTimer) (ops : List (TimerOp × ℚ)) : CountdownTimer :=
  ops.foldl TimerStep ct

/-- Consistency of a timer state with the current monotonic time `t`:
accumulated elapsed time is non-negative, an active timer's period was
opened at a positive clock value no later than `t`, and an inactive
timer's period is closed.  This holds for every state the program reaches
from a fresh timer at positive, non-decreasing clock times. -/
def TimerGood (ct : CountdownTimer) (t : ℚ) : Prop :=
  0 ≤ ct._elapsed
  ∧ (ct._active = true → 0 < ct.period._start ∧ ct.period._start ≤ t)
  ∧ (ct._active = false → ct.period = Period.init)

instance (ct : CountdownTimer) (t : ℚ) : Decidable (TimerGood ct t) := by
  unfold TimerGood
  infer_instance

/-- The clock times attached to a sequence of operations are
non-decreasing, starting from `t`. -/
def timerTimesOK : ℚ → List (TimerOp × ℚ) → Bool
  | _, [] => true
  | t, a :: rest => decide (t ≤ a.2) && timerTimesOK a.2 rest

/-- The clock time after the last operation of the sequence (`t` when the
sequence is empty). -/
def timerEndTime : ℚ → List (TimerOp × ℚ) → ℚ
  | t, [] => t
  | _, a :: rest => timerEndTime a.2 rest

/-! ## Domain events and the window aggregator
(`widgets/countdown_timer/time_spent.py`) -/

/-- One record of the event log, as the window aggregator reads it: the
emitting component, the event name, the `at` timestamp and the `elapsed`
payload (`time_spent.py` touches no other key). -/
structure DomainEvent where
  component_id : String
  name : String
  at_ : ℚ
  elapsed : ℚ
deriving DecidableEq, Repr

/-- Source `TimeSpentWindowed` state: the component id, the deque of
window-relevant events, and `prev_spent`.  The reactive
`spent_in_current_period` display attribute enters queries as the
current-open-period argument instead. -/
structure TimeSpentWindowed where
  component_id : String
  events : List DomainEvent
  prev_spent : ℚ
deriving DecidableEq, Repr

/-- A `TimeSpentWindowed(component_id)` built when no prior logged event
is relevant: empty deque, `prev_spent = 0`. -/
def TimeSpentWindowed.mk0 (cid : String) : TimeSpentWindowed := ⟨cid, [], 0⟩

/-- Source `TimeSpentWindowed._is_event_relevant`: matching component id,
name in `{"stopped", "manually_accounted_time"}`, and
`at >= window_start`, where `ws` is the dynamic `window_start` value at
the moment of the check. -/
def TimeSpentWindowed.is_event_relevant (s : TimeSpentWindowed) (ws : ℚ)
    (d : DomainEvent) : Bool :=
  d.component_id == s.component_id
  && (d.name == "stopped" || d.name == "manually_accounted_time")
  && decide (ws ≤ d.at_)

/-- Source `TimeSpentWindowed.on_new_event`: ignore irrelevant events;
otherwise append to the deque and add the event's `elapsed` to
`prev_spent` immediately. -/
def TimeSpentWindowed.on_new_event (s : TimeSpentWindowed) (ws : ℚ)
    (d : DomainEvent) : TimeSpentWindowed :=
  if s.is_event_relevant ws d then
    { s with
        events := s.events ++ [d]
        prev_spent := s.prev_spent + d.elapsed }
  else s

/-- Source `TimeSpentWindowed._prune`: pop the leading run of events with
`at <= window_start` (a `takewhile`, then that many `popleft`s), and when
the popped total is truthy and `update_prev_spent` is set, subtract it
from `prev_spent`. -/
def TimeSpentWindowed.prune (s : TimeSpentWindowed) (ws : ℚ)
    (update_prev_spent : Bool) : TimeSpentWindowed :=
  let to_prune := s.events.takeWhile (fun e => decide (e.at_ ≤ ws))
  let to_rm := (to_prune.map DomainEvent.elapsed).sum
  let kept := s.events.drop to_prune.length
  if to_rm ≠ 0 ∧ update_prev_spent = true then
    { s with
        events := kept
        prev_spent := s.prev_spent - to_rm }
  else { s with events := kept }

/-- The aggregator's query (`_update` path, `query` in the spec): a lazy
prune at the current `window_start`, then `prev_spent` plus the passed-in
current open-period elapsed. -/
def TimeSpentWindowed.query (s : TimeSpentWindowed) (ws cur : ℚ) : ℚ :=
  (s.prune ws true).prev_spent + cur

/-- What happens to one aggregator over time: a new event arrives through
the event store's subscriber fan-out, or a prune runs (lazily before a
display update, or on the 60-second interval). -/
inductive AggAct where
  | append (e : DomainEvent)
  | prune (u : ℚ)
deriving DecidableEq, Repr

/-- One aggregator step; `ws` maps a wall-clock instant to the dynamic
`window_start` value at that instant.  An arriving event is checked
against `window_start` as of its own timestamp (the source stamps events
with `pendulum.now()` at append time); a prune at time `u` uses
`window_start` as of `u`. -/
def aggStep (ws : ℚ → ℚ) (s : TimeSpentWindowed) (a : AggAct) :
    TimeSpentWindowed :=
  match a with
  | .append e => s.on_new_event (ws e.at_) e
  | .prune u => s.prune (ws u) true

/-- A whole aggregator history, applied left to right. -/
def runAgg (ws : ℚ → ℚ) (s : TimeSpentWindowed) (acts : List AggAct) :
    TimeSpentWindowed :=
  acts.foldl (aggStep ws) s

/-- Validity of an aggregator history before a query at time `T`: action
times are non-decreasing starting from `t`; every event arrives before
`T` and carries its arrival time, at which `window_start` is at or before
the event's timestamp (true of every window kind in the source, where
`window_start <= now`); and `window_start` never exceeds its value at the
query time (it only moves forward in real time). -/
def aggActsOK (ws : ℚ → ℚ) (T : ℚ) : ℚ → List AggAct → Bool
  | _, [] => true
  | t, .append e :: rest =>
      decide (t ≤ e.at_) && decide (e.at_ < T) && decide (ws e.at_ ≤ e.at_)
        && decide (ws e.at_ ≤ ws T) && aggActsOK ws T e.at_ rest
  | t, .prune u :: rest =>
      decide (t ≤ u) && decide (u ≤ T) && decide (ws u ≤ ws T)
        && aggActsOK ws T u rest

/-- The events appended by a history, in order. -/
def appendedEvents : List AggAct → List DomainEvent
  | [] => []
  | .append e :: rest => e :: appendedEvents rest
  | .prune _ :: rest => appendedEvents rest

/-- The clock time after the last action of a history (`t` when it is
empty). -/
def aggEndTime : ℚ → List AggAct → ℚ
  | t, [] => t
  | _, .append e :: rest => aggEndTime e.at_ rest
  | _, .prune u :: rest => aggEndTime u rest

/-- The component-and-name part of `_is_event_relevant`: matching
`component_id` and name in `{"stopped", "manually_accounted_time"}`. -/
def matchesB (cid : String) (e : DomainEvent) : Bool :=
  e.component_id == cid
    && (e.name == "stopped" || e.name == "manually_accounted_time")

/-- Stated from claim C1's words: the exact sum of `elapsed` over appended
events with matching component id, name `stopped` or
`manually_accounted_time`, and timestamp in `[window_start T, T)` —
inclusive at the lower bound. -/
def claimedWindowSum (cid : String) (ws : ℚ → ℚ) (T : ℚ)
    (acts : List AggAct) : ℚ :=
  (((appendedEvents acts).filter (fun e =>
      matchesB cid e && decide (ws T ≤ e.at_)
        && decide (e.at_ < T))).map DomainEvent.elapsed).sum

/-- The window sum the code maintains: exclusive at the lower bound, since
an event with `at = window_start` is admitted by `_is_event_relevant`
(`at >= window_start`) but evicted by `_prune` (`at <= window_start`). -/
def codeWindowSum (cid : String) (ws : ℚ → ℚ) (T : ℚ)
    (acts : List AggAct) : ℚ :=
  (((appendedEvents acts).filter (fun e =>
      matchesB cid e && decide (ws T < e.at_)
        && decide (e.at_ < T))).map DomainEvent.elapsed).sum

/-! ## EventStore (`pymodoro_state.py`) -/

/-- Failure mode of `open`-ing a file that does not exist. -/
inductive FileError where
  | fileNotFound
deriving DecidableEq, Repr

/-- Source `EventStore.load`: `with open(cls.store) as f: return
[cls._parse(l.strip()) for l in f]`.  `open(cls.store)` raises
`FileNotFoundError` when the events file is absent and nothing handles
it.  The file is modelled at the parsed level, as the sequence of event
records it holds, `none` when it does not exist. -/
def EventStore.load (file : Option (List DomainEvent)) :
    Except FileError (List DomainEvent) :=
  match file with
  | none => .error .fileNotFound
  | some events => .ok events

/-- Modelled from the spec: the event log with subscriptions.
`EventStore.subscribe` and the subscriber fan-out on append are called
from `widgets/countdown_timer/time_spent.py` and `component.py`, but
their definitions are missing from `src/pymodoro_state.py` (whose
`EventStore.register` predates them).  Per the spec, `append` records
the event durably and synchronously invokes every subscribed callback,
isolating per-subscriber failures.  Callbacks may fail (`Except`), and
every invocation is recorded in `deliveries` together with its outcome. -/
structure EventLog where
  events : List DomainEvent
  subs : List (Nat × (DomainEvent → Except String Unit))
  deliveries : List (Nat × DomainEvent × Except String Unit)

/-- Modelled from the spec: `subscribe(callback)` registers a callback to
be invoked on every future append. -/
def EventLog.subscribe (log : EventLog) (i : Nat)
    (cb : DomainEvent → Except String Unit) : EventLog :=
  { log with subs := log.subs ++ [(i, cb)] }

/-- Modelled from the spec: `append(event)` appends the event to the log
and synchronously invokes every subscribed callback with it; a callback's
failure aborts neither the append nor the other callbacks. -/
def EventLog.append (log : EventLog) (e : DomainEvent) : EventLog :=
  { log with
      events := log.events ++ [e]
      deliveries := log.deliveries ++ log.subs.map (fun s => (s.1, e, s.2 e)) }

/-- A sequence of appends, left to right. -/
def EventLog.appendAll (log : EventLog) (es : List DomainEvent) : EventLog :=
  es.foldl EventLog.append log

/-! ## StateStore (`pymodoro_state.py`) -/

/-- The slice of the filesystem `StateStore.dump` touches, plus the
class-level `_updated` generation counter.  Each file is `none` when
absent, otherwise the parsed list of snapshot records it holds; snapshot
records stay abstract (`σ`). -/
structure StateStoreFS (σ : Type) where
  state : Option (List σ)
  bak : Option (List σ)
  _updated : Int

/-- Source `StateStore.dump`: increment `_updated`; then
`open(cls.store, "r")` — evaluated before `open(cls.store + ".bak", "w")`
in the same `with`, so a missing state file raises `FileNotFoundError`
while the `.bak` file is still untouched — copy the state file's contents
to `.bak`; finally overwrite the state file with the serialized
snapshots.  Returns the resulting filesystem and the outcome. -/
def StateStore.dump {σ : Type} (fs : StateStoreFS σ) (states : List σ) :
    StateStoreFS σ × Except FileError Unit :=
  let fs1 : StateStoreFS σ := { fs with _updated := fs._updated + 1 }
  match fs1.state with
  | none => (fs1, .error .fileNotFound)
  | some cur =>
      ({ fs1 with
          bak := some cur
          state := some states }, .ok ())

end Pymodoro

namespace Pymodoro

/-! ## Helper lemmas about `Period` -/

/-- The `_end` refresh performed by the `elapsed` property never changes
`_start`. -/
theorem Period.elapsed_fst_start (p : Period) (now : ℚ) :
    ((p.elapsed now).1)._start = p._start := by
  simp only [Period.elapsed]
  split <;> rfl

/-- The `_end` refresh performed by the `elapsed` property does not change
the value `elapsed` returns at any clock time: `_end` is only consulted
when `_start = 0`, and in that case nothing was refreshed. -/
theorem Period.elapsedVal_elapsed_fst (p : Period) (now t : ℚ) :
    ((p.elapsed now).1).elapsedVal t = p.elapsedVal t := by
  simp only [Period.elapsedVal, Period.elapsed]
  by_cases h : p._start = 0 <;> simp [h]

/-- An unopened (freshly constructed or stopped) period reports 0 elapsed. -/
theorem Period.elapsedVal_init (t : ℚ) : Period.init.elapsedVal t = 0 := by
  simp [Period.elapsedVal, Period.elapsed, Period.init]

/-- A running period with `_start ≠ 0` reports `now - _start`. -/
theorem Period.elapsedVal_of_ne (p : Period) (t : ℚ) (h : p._start ≠ 0) :
    p.elapsedVal t = t - p._start := by
  simp [Period.elapsedVal, Period.elapsed, h]

/-- A period with `_start = 0` is treated as not running: `elapsed` returns
the stored `_end` and refreshes nothing. -/
theorem Period.elapsed_of_eq (p : Period) (t : ℚ) (h : p._start = 0) :
    p.elapsed t = (p, p._end) := by
  simp [Period.elapsed, h]

/-- A closed period is left untouched by the `elapsed` property. -/
theorem Period.elapsed_fst_of_closed (p : Period) (t : ℚ) (h : p._start = 0) :
    (p.elapsed t).1 = p := by
  simp [Period.elapsed, h]

/-! ## C5 — `Period.stop` on an unopened period -/

/-- Counterexample to C5 as stated: stopping a never-started `Period` at
monotonic time 5 returns `5 - 0 = 5`, not 0 (the source computes
`monotonic() - start` with no guard for `_start = 0`). -/
theorem period_stop_unopened_counterexample :
    (Period.init.stop 5).2 ≠ 0 := by
  norm_num [Period.stop, Period.init]

/-- C5, amended: calling `stop()` on a Period that is not open returns the
raw monotonic reading `now - 0 = now` (0 only when the clock reads 0), and
reinitializes `_start`/`_end` to 0, so a subsequent `start()`/`stop()`
cycle measures its duration correctly. -/
theorem period_stop_unopened (p : Period) (now : ℚ) (h : p._start = 0) :
    (p.stop now).2 = now
    ∧ (p.stop now).1 = Period.init
    ∧ ∀ t₁ t₂ : ℚ, (((p.stop now).1.start t₁).stop t₂).2 = t₂ - t₁ := by
  refine ⟨?_, rfl, fun t₁ t₂ => rfl⟩
  simp [Period.stop, h]

/-- Witness for `period_stop_unopened` at the fresh period and time 5. -/
theorem period_stop_unopened_witness :
    Period.init._start = 0
    ∧ ((Period.init.stop 5).2 = 5
        ∧ (Period.init.stop 5).1 = Period.init
        ∧ ∀ t₁ t₂ : ℚ, (((Period.init.stop 5).1.start t₁).stop t₂).2 = t₂ - t₁) :=
  ⟨by decide, period_stop_unopened Period.init 5 (by decide)⟩

/-! ## C2 — `reset()` mid-run -/

/-- C2 is a code bug: `CountdownTimer.reset` zeroes `_elapsed` and
force-closes the period (discarding its partial elapsed time, so
`total_elapsed` is 0 afterwards), but it never clears `_active`.  Starting
a fresh timer at monotonic time 1 and resetting at time 6 leaves
`is_active = true`, contradicting the claim that `reset()` always yields
`is_active == false`.  (Afterwards the period is closed while `_active`
is still set, so a later `start()` is refused and a later `stop()` adds
the raw clock reading to `_elapsed`.) -/
theorem reset_mid_run_leaves_is_active :
    ((CountdownTimer.init.start 1).1.reset 6).1.is_active = true
    ∧ ((CountdownTimer.init.start 1).1.reset 6).1.total_elapsedVal 6 = 0
    ∧ (((CountdownTimer.init.start 1).1.reset 6).1.start 7).2 = false := by
  refine ⟨?_, ?_, ?_⟩ <;>
    norm_num [CountdownTimer.start, CountdownTimer.init, CountdownTimer.remaining,
      CountdownTimer.total_elapsed, CountdownTimer.reset, CountdownTimer.is_active,
      CountdownTimer.total_elapsedVal, Period.elapsedVal,
      Period.elapsed, Period.init, Period.start, Period.stop]

/-! ## C7 — serialization round trip -/

/-- C7: rehydrating a timer from its own dumped state
(`from_state(dump_state())`) reproduces `total_elapsed` and `remaining`
exactly as they were at serialization time, at every later read time
(the rehydrated timer's values are frozen), and the result is always
idle: `is_active` is false and the period is unopened. -/
theorem from_state_dump_state_roundtrip (ct : CountdownTimer) (now t : ℚ) :
    (CountdownTimer.from_state (ct.dump_state now).2).total_elapsedVal t
        = ct.total_elapsedVal now
    ∧ (CountdownTimer.from_state (ct.dump_state now).2).remainingVal t
        = ct.remainingVal now
    ∧ (CountdownTimer.from_state (ct.dump_state now).2).is_active = false
    ∧ (CountdownTimer.from_state (ct.dump_state now).2).period = Period.init := by
  refine ⟨?_, ?_, rfl, rfl⟩ <;>
    simp [CountdownTimer.from_state, CountdownTimer.dump_state,
      CountdownTimer.total_elapsed, CountdownTimer.total_elapsedVal,
      CountdownTimer.remainingVal, CountdownTimer.init,
      Period.elapsedVal, Period.elapsed, Period.init]

/-! ## C6 — invalid transitions are no-ops returning sentinels -/

/-- C6: for every timer state, `start()` while active returns `false` and
leaves the state literally unchanged; `start()` while inactive with
`remaining == 0` returns `false` and changes no observable state
(`is_active`, `total_elapsed` and `remaining` at every read time are
unchanged); otherwise `start()` opens the period and returns `true`;
and `stop()` while inactive returns `0` and leaves the state literally
unchanged. -/
theorem invalid_transitions_are_noops (ct : CountdownTimer) (now : ℚ) :
    (ct.is_active = true → ct.start now = (ct, false))
    ∧ (ct.is_active = false → ct.remainingVal now = 0 →
        (ct.start now).2 = false
        ∧ (ct.start now).1.is_active = ct.is_active
        ∧ (∀ t, ((ct.start now).1).total_elapsedVal t = ct.total_elapsedVal t)
        ∧ (∀ t, ((ct.start now).1).remainingVal t = ct.remainingVal t))
    ∧ (ct.is_active = false → ct.remainingVal now ≠ 0 →
        (ct.start now).2 = true
        ∧ (ct.start now).1.is_active = true
        ∧ (ct.start now).1.period = Period.init.start now)
    ∧ (ct.is_active = false → ct.stop now = (ct, 0)) := by
  have hr : (ct.remaining now).2 = ct.remainingVal now := rfl
  refine ⟨fun h => ?_, fun h h0 => ?_, fun h h0 => ?_, fun h => ?_⟩
  · simp [CountdownTimer.start, CountdownTimer.is_active] at h ⊢
    simp [h]
  · simp only [CountdownTimer.is_active] at h
    have h0' := h0
    unfold CountdownTimer.remainingVal CountdownTimer.total_elapsedVal
      Period.elapsedVal at h0'
    have hle : ct.initial_seconds ≤ ct._elapsed + (ct.period.elapsed now).2 :=
      sub_nonpos.mp (max_eq_left_iff.mp h0')
    refine ⟨?_, ?_, fun t => ?_, fun t => ?_⟩ <;>
      simp [CountdownTimer.start, h, hle, CountdownTimer.is_active,
        CountdownTimer.remaining, CountdownTimer.total_elapsed,
        CountdownTimer.total_elapsedVal, CountdownTimer.remainingVal,
        Period.elapsedVal_elapsed_fst]
  · simp only [CountdownTimer.is_active] at h
    have hlt : ¬ ct.initial_seconds ≤ ct._elapsed + (ct.period.elapsed now).2 := by
      intro hc
      apply h0
      unfold CountdownTimer.remainingVal CountdownTimer.total_elapsedVal
        Period.elapsedVal
      exact max_eq_left_iff.mpr (sub_nonpos.mpr hc)
    refine ⟨?_, ?_, ?_⟩ <;>
      simp [CountdownTimer.start, h, hlt, CountdownTimer.is_active,
        CountdownTimer.remaining, CountdownTimer.total_elapsed,
        Period.start, Period.init]
  · simp only [CountdownTimer.is_active] at h
    simp [CountdownTimer.stop, h]

/-- Witness for `invalid_transitions_are_noops`: a fresh timer is
inactive, so `stop()` at time 3 is a no-op returning 0. -/
theorem invalid_transitions_are_noops_witness :
    CountdownTimer.init.is_active = false
    ∧ CountdownTimer.init.stop 3 = (CountdownTimer.init, 0) :=
  ⟨by decide, (invalid_transitions_are_noops CountdownTimer.init 3).2.2.2 (by decide)⟩

/-! ## C4 — `EventStore.load` on a missing events file -/

/-- Counterexample to C4 as stated: with the events file absent,
`EventStore.load` does not succeed with the empty sequence of events. -/
theorem eventstore_load_missing_counterexample :
    EventStore.load none ≠ .ok [] := by
  simp [EventStore.load]

/-- C4, amended: when the durable event-log file does not exist,
`EventStore.load` raises a file-not-found failure (the unguarded
`open(cls.store)`); a missing log file is not treated as an empty log. -/
theorem eventstore_load_missing_raises :
    EventStore.load none = .error .fileNotFound := rfl

/-! ## C10 — first `StateStore.dump` on a fresh install -/

/-- C10: on a fresh install, with neither the state file nor the `.bak`
sidecar present, `StateStore.dump` fails with file-not-found when opening
the current state file for the backup copy, after the generation counter
was already incremented and before any snapshot data was written: both
files remain absent. -/
theorem statestore_dump_fresh_install {σ : Type} (states : List σ) (u : Int) :
    StateStore.dump { state := none, bak := none, _updated := u } states
      = ({ state := none, bak := none, _updated := u + 1 },
          .error .fileNotFound) := rfl

/-! ## C9 — second `StateStore.dump` backs up the first -/

/-- C9: whenever the state file exists (in particular after a successful
first dump), `dump` succeeds; and a second dump first copies the entire
contents the first dump wrote into the `.bak` sidecar before overwriting
the state file, so afterwards `.bak` holds exactly the previously
persisted snapshot list and the state file holds the new one. -/
theorem statestore_dump_backup {σ : Type} (fs : StateStoreFS σ)
    (s₁ s₂ c : List σ) (h : fs.state = some c) :
    (StateStore.dump fs s₁).2 = .ok ()
    ∧ (StateStore.dump fs s₁).1.state = some s₁
    ∧ (StateStore.dump (StateStore.dump fs s₁).1 s₂).1.bak = some s₁
    ∧ (StateStore.dump (StateStore.dump fs s₁).1 s₂).1.state = some s₂
    ∧ (StateStore.dump (StateStore.dump fs s₁).1 s₂).2 = .ok () := by
  simp [StateStore.dump, h]

/-- Witness for `statestore_dump_backup`: dumping `[1]` then `[2]` over an
initially empty-but-present state file leaves `[1]` in `.bak`. -/
theorem statestore_dump_backup_witness :
    (⟨some [], none, 0⟩ : StateStoreFS Nat).state = some []
    ∧ ((StateStore.dump (⟨some [], none, 0⟩ : StateStoreFS Nat) [1]).2 = .ok ()
      ∧ (StateStore.dump (⟨some [], none, 0⟩ : StateStoreFS Nat) [1]).1.state
          = some [1]
      ∧ (StateStore.dump
          (StateStore.dump (⟨some [], none, 0⟩ : StateStoreFS Nat) [1]).1
          [2]).1.bak = some [1]
      ∧ (StateStore.dump
          (StateStore.dump (⟨some [], none, 0⟩ : StateStoreFS Nat) [1]).1
          [2]).1.state = some [2]
      ∧ (StateStore.dump
          (StateStore.dump (⟨some [], none, 0⟩ : StateStoreFS Nat) [1]).1
          [2]).2 = .ok ()) :=
  ⟨rfl, statestore_dump_backup ⟨some [], none, 0⟩ [1] [2] [] rfl⟩

/-! ## C3 — subscriber fan-out of the event log (spec-modelled) -/

/-- Deliveries already recorded stay recorded as more events are
appended. -/
theorem EventLog.mem_deliveries_appendAll :
    ∀ (es : List DomainEvent) (log : EventLog)
      (x : Nat × DomainEvent × Except String Unit),
      x ∈ log.deliveries → x ∈ (log.appendAll es).deliveries
  | [], _, _, hx => hx
  | e :: rest, log, x, hx =>
      EventLog.mem_deliveries_appendAll rest (log.append e) x
        (by simp [EventLog.append, hx])

/-- Appending never changes the subscriber list. -/
theorem EventLog.subs_appendAll :
    ∀ (es : List DomainEvent) (log : EventLog),
      (log.appendAll es).subs = log.subs
  | [], _ => rfl
  | _ :: rest, log => EventLog.subs_appendAll rest (log.append _)

/-- C3 (spec-modelled): with a callback registered under id `i` exactly
once, a run of `M` appends synchronously notifies that subscriber exactly
`M` more times; every append lands in the durable log regardless of
callback outcomes; the subscriber list is unchanged; and every subscriber
is invoked on every appended event — each invocation is recorded with its
own outcome, so one subscriber's exception aborts neither the append nor
the other subscribers. -/
theorem eventlog_subscriber_fanout (log : EventLog) (i : Nat)
    (es : List DomainEvent)
    (h : log.subs.countP (fun s => s.1 == i) = 1) :
    (log.appendAll es).deliveries.countP (fun d => d.1 == i)
      = log.deliveries.countP (fun d => d.1 == i) + es.length
    ∧ (log.appendAll es).events = log.events ++ es
    ∧ (log.appendAll es).subs = log.subs
    ∧ ∀ e ∈ es, ∀ s ∈ log.subs,
        (s.1, e, s.2 e) ∈ (log.appendAll es).deliveries := by
  induction es generalizing log with
  | nil => simp [EventLog.appendAll]
  | cons e rest ih =>
      have hsubs : (log.append e).subs = log.subs := rfl
      have ih' := ih (log.append e) (by simpa [hsubs] using h)
      have hcnt : (log.append e).deliveries.countP (fun d => d.1 == i)
          = log.deliveries.countP (fun d => d.1 == i) + 1 := by
        simp [EventLog.append, List.countP_append, List.countP_map]
        simpa [Function.comp] using h
      have happ : (log.appendAll (e :: rest)) = (log.append e).appendAll rest := rfl
      refine ⟨?_, ?_, ?_, ?_⟩
      · rw [happ, ih'.1, hcnt]
        simp only [List.length_cons]
        omega
      · rw [happ, ih'.2.1]
        simp [EventLog.append]
      · rw [happ, ih'.2.2.1, hsubs]
      · intro e' he' s hs
        rcases List.mem_cons.mp he' with he' | he'
        · subst he'
          refine EventLog.mem_deliveries_appendAll rest (log.append e') _ ?_
          show (s.1, e', s.2 e')
            ∈ log.deliveries ++ log.subs.map (fun s => (s.1, e', s.2 e'))
          exact List.mem_append_right _ (List.mem_map.mpr ⟨s, hs, rfl⟩)
        · exact ih'.2.2.2 e' he' s (by rw [hsubs]; exact hs)

/-- Witness for `eventlog_subscriber_fanout`: two subscribers, one of
which always raises; two appends still both land, and subscriber 0 is
notified exactly twice. -/
theorem eventlog_subscriber_fanout_witness :
    (⟨[], [(0, fun _ => Except.error "boom"), (1, fun _ => Except.ok ())],
        []⟩ : EventLog).subs.countP (fun s => s.1 == 0) = 1
    ∧ ((⟨[], [(0, fun _ => Except.error "boom"), (1, fun _ => Except.ok ())],
          []⟩ : EventLog).appendAll
        [⟨"c", "stopped", 1, 2⟩, ⟨"c", "stopped", 3, 4⟩]).deliveries.countP
          (fun d => d.1 == 0)
      = (⟨[], [(0, fun _ => Except.error "boom"), (1, fun _ => Except.ok ())],
          []⟩ : EventLog).deliveries.countP (fun d => d.1 == 0)
        + ([⟨"c", "stopped", 1, 2⟩, ⟨"c", "stopped", 3, 4⟩] :
            List DomainEvent).length :=
  ⟨rfl,
    (eventlog_subscriber_fanout
      ⟨[], [(0, fun _ => Except.error "boom"), (1, fun _ => Except.ok ())], []⟩
      0 [⟨"c", "stopped", 1, 2⟩, ⟨"c", "stopped", 3, 4⟩] rfl).1⟩

/-! ## C8 — monotonicity of `total_elapsed` under start/stop/read traces -/

/-- Timer-state consistency only depends on the clock through an upper
bound, so it is preserved as the clock moves forward. -/
theorem TimerGood.mono {ct : CountdownTimer} {t t' : ℚ}
    (h : TimerGood ct t) (ht : t ≤ t') : TimerGood ct t' :=
  ⟨h.1, fun hA => ⟨(h.2.1 hA).1, le_trans (h.2.1 hA).2 ht⟩, h.2.2⟩

/-- For a consistent state, the `total_elapsed` value is monotone in the
clock (non-decreasing while active, constant while inactive). -/
theorem totalVal_mono {ct : CountdownTimer} {t t' : ℚ}
    (h : TimerGood ct t) (ht : t ≤ t') :
    ct.total_elapsedVal t ≤ ct.total_elapsedVal t' := by
  by_cases hA : ct._active = true
  · have hs := (h.2.1 hA).1
    rw [CountdownTimer.total_elapsedVal, CountdownTimer.total_elapsedVal,
      Period.elapsedVal_of_ne _ _ (ne_of_gt hs),
      Period.elapsedVal_of_ne _ _ (ne_of_gt hs)]
    linarith
  · have hp := h.2.2 (by simpa using hA)
    rw [CountdownTimer.total_elapsedVal, CountdownTimer.total_elapsedVal, hp,
      Period.elapsedVal_init, Period.elapsedVal_init]

/-- One `start`/`stop`/`total_elapsed`-read at a later clock time
preserves consistency and never decreases the observed `total_elapsed`. -/
theorem TimerStep_preserves {ct : CountdownTimer} {t : ℚ} (a : TimerOp)
    (t' : ℚ) (hg : TimerGood ct t) (h0 : 0 < t) (ht : t ≤ t') :
    TimerGood (TimerStep ct (a, t')) t'
    ∧ ct.total_elapsedVal t ≤ (TimerStep ct (a, t')).total_elapsedVal t' := by
  have hg' := hg.mono ht
  have hmono := totalVal_mono hg ht
  cases a with
  | read =>
      have hstep : TimerStep ct (.read, t')
          = { ct with period := (ct.period.elapsed t').1 } := rfl
      rw [hstep]
      constructor
      · refine ⟨hg.1, fun hA => ?_, fun hA => ?_⟩
        · simpa [Period.elapsed_fst_start] using hg'.2.1 hA
        · have hp := hg'.2.2 hA
          show (ct.period.elapsed t').1 = Period.init
          rw [hp]
          rfl
      · have hv : ({ ct with period := (ct.period.elapsed t').1 }
            : CountdownTimer).total_elapsedVal t' = ct.total_elapsedVal t' := by
          simp [CountdownTimer.total_elapsedVal, Period.elapsedVal_elapsed_fst]
        rw [hv]
        exact hmono
  | stop =>
      by_cases hA : ct._active = true
      · have hs := hg.2.1 hA
        have hstep : TimerStep ct (.stop, t')
            = { ct with
                period := ⟨0, 0⟩
                _elapsed := ct._elapsed + (t' - ct.period._start)
                _active := false } := by
          simp [TimerStep, CountdownTimer.stop, hA, Period.stop]
        rw [hstep]
        refine ⟨⟨?_, fun hA' => ?_, fun _ => rfl⟩, ?_⟩
        · have h1 := hg.1
          have h2 := hs.2
          show (0 : ℚ) ≤ ct._elapsed + (t' - ct.period._start)
          linarith
        · simp at hA'
        · have h00 : (⟨0, 0⟩ : Period).elapsedVal t' = 0 :=
            Period.elapsedVal_init t'
          simp only [CountdownTimer.total_elapsedVal, h00,
            Period.elapsedVal_of_ne ct.period t (ne_of_gt hs.1)]
          have h2 := hs.2
          linarith
      · have hA' : ct._active = false := by simpa using hA
        have hstep : TimerStep ct (.stop, t') = ct := by
          simp [TimerStep, CountdownTimer.stop, hA']
        rw [hstep]
        exact ⟨hg', hmono⟩
  | start =>
      by_cases hA : ct._active = true
      · have hstep : TimerStep ct (.start, t') = ct := by
          simp [TimerStep, CountdownTimer.start, hA]
        rw [hstep]
        exact ⟨hg', hmono⟩
      · have hA' : ct._active = false := by simpa using hA
        have hp := hg.2.2 hA'
        have hr1 : (ct.remaining t').1 = ct := by
          show ({ ct with period := (ct.period.elapsed t').1 }
            : CountdownTimer) = ct
          rw [Period.elapsed_fst_of_closed _ _ (by rw [hp]; rfl)]
        by_cases hz : (ct.remaining t').2 = 0
        · have hstep : TimerStep ct (.start, t') = ct := by
            simp only [TimerStep, CountdownTimer.start, hA', Bool.false_eq_true,
              if_false, hz, if_true, hr1]
          rw [hstep]
          exact ⟨hg', hmono⟩
        · have ht' : (0 : ℚ) < t' := lt_of_lt_of_le h0 ht
          have hstep : TimerStep ct (.start, t')
              = { ct with
                  _active := true
                  period := ⟨t', t'⟩ } := by
            simp only [TimerStep, CountdownTimer.start, hA', Bool.false_eq_true,
              if_false, hz, if_true, hr1, Period.start]
          rw [hstep]
          refine ⟨⟨hg.1, fun _ => ⟨ht', le_refl t'⟩, fun hF => ?_⟩, ?_⟩
          · simp at hF
          · have hnew : (⟨t', t'⟩ : Period).elapsedVal t' = t' - t' :=
              Period.elapsedVal_of_ne _ _ (ne_of_gt ht')
            simp only [CountdownTimer.total_elapsedVal, hnew, hp,
              Period.elapsedVal_init]
            linarith

/-- A whole trace of `start`/`stop`/read operations at non-decreasing
positive clock times preserves consistency and never decreases the
observed `total_elapsed`. -/
theorem runTimer_preserves :
    ∀ (ops : List (TimerOp × ℚ)) (ct : CountdownTimer) (t : ℚ),
      TimerGood ct t → 0 < t → timerTimesOK t ops = true →
      TimerGood (runTimer ct ops) (timerEndTime t ops)
      ∧ ct.total_elapsedVal t
          ≤ (runTimer ct ops).total_elapsedVal (timerEndTime t ops)
  | [], _, _, hg, _, _ => ⟨hg, le_refl _⟩
  | (op, u) :: rest, ct, t, hg, h0, hok => by
      simp only [timerTimesOK, Bool.and_eq_true, decide_eq_true_eq] at hok
      obtain ⟨htu, hrest⟩ := hok
      have hstep := TimerStep_preserves op u hg h0 htu
      have hrec := runTimer_preserves rest (TimerStep ct (op, u)) u hstep.1
        (lt_of_lt_of_le h0 htu) hrest
      exact ⟨hrec.1, le_trans hstep.2 hrec.2⟩

/-- C8: for every consistent timer state at a positive clock time and
every sequence of `start`/`stop`/`total_elapsed`-read operations at
non-decreasing clock times: while active, `total_elapsed` is monotone
non-decreasing in the clock; while inactive it is frozen (the same at
every read time); no such operation sequence ever decreases it; and in
particular once positive it never returns to 0 — only an explicit
`reset()` does that. -/
theorem total_elapsed_monotone (ct : CountdownTimer) (t : ℚ)
    (hg : TimerGood ct t) (h0 : 0 < t) :
    (ct.is_active = true → ∀ u u', t ≤ u → u ≤ u' →
        ct.total_elapsedVal u ≤ ct.total_elapsedVal u')
    ∧ (ct.is_active = false → ∀ u u',
        ct.total_elapsedVal u = ct.total_elapsedVal u')
    ∧ (∀ ops, timerTimesOK t ops = true →
        ct.total_elapsedVal t
          ≤ (runTimer ct ops).total_elapsedVal (timerEndTime t ops))
    ∧ (∀ ops, timerTimesOK t ops = true → 0 < ct.total_elapsedVal t →
        0 < (runTimer ct ops).total_elapsedVal (timerEndTime t ops)) := by
  refine ⟨fun _ u u' htu huu => ?_, fun hA u u' => ?_, fun ops hok => ?_,
    fun ops hok hpos => ?_⟩
  · exact totalVal_mono (hg.mono htu) huu
  · have hp := hg.2.2 (by simpa [CountdownTimer.is_active] using hA)
    simp [CountdownTimer.total_elapsedVal, hp, Period.elapsedVal_init]
  · exact (runTimer_preserves ops ct t hg h0 hok).2
  · exact lt_of_lt_of_le hpos (runTimer_preserves ops ct t hg h0 hok).2

/-- Witness for `total_elapsed_monotone`: a running timer opened at time
1, observed at time 2, then stopped at time 3. -/
theorem total_elapsed_monotone_witness :
    TimerGood ⟨1500, true, 0, ⟨1, 1⟩⟩ 2
    ∧ timerTimesOK 2 [(TimerOp.stop, 3)] = true
    ∧ (⟨1500, true, 0, ⟨1, 1⟩⟩ : CountdownTimer).total_elapsedVal 2
        ≤ (runTimer ⟨1500, true, 0, ⟨1, 1⟩⟩
            [(TimerOp.stop, 3)]).total_elapsedVal
              (timerEndTime 2 [(TimerOp.stop, 3)]) :=
  ⟨by decide, by decide,
    (total_elapsed_monotone ⟨1500, true, 0, ⟨1, 1⟩⟩ 2 (by decide)
        (by decide)).2.2.1 [(TimerOp.stop, 3)] (by decide)⟩

/-! ## C1 — exactness of the window aggregator's query -/

/-- Dropping the `takewhile` prefix is `dropWhile`. -/
theorem drop_length_takeWhile {α : Type} (p : α → Bool) :
    ∀ l : List α, l.drop (l.takeWhile p).length = l.dropWhile p
  | [] => rfl
  | a :: l => by
      by_cases h : p a <;>
        simp [List.takeWhile_cons, List.dropWhile_cons, h,
          drop_length_takeWhile p l]

/-- On a list where the predicate is downward closed along the order of
elements (once it fails it keeps failing), `dropWhile` removes exactly
the elements satisfying it. -/
theorem dropWhile_eq_filter_of_sorted {α : Type} (p : α → Bool)
    (l : List α) (hpw : l.Pairwise (fun a b => p b = true → p a = true)) :
    l.dropWhile p = l.filter (fun x => !p x) := by
  induction l with
  | nil => rfl
  | cons a l ih =>
      obtain ⟨ha, hl⟩ := List.pairwise_cons.mp hpw
      by_cases h : p a
      · simpa [List.dropWhile_cons, List.filter_cons, h] using ih hl
      · have hself : l.filter (fun x => !p x) = l := by
          refine List.filter_eq_self.mpr fun x hx => ?_
          rcases Bool.eq_false_or_eq_true (p x) with htx | hfx
          · exact absurd (ha x hx htx) h
          · simp [hfx]
        simp [List.dropWhile_cons, List.filter_cons, h, hself]

/-- A mapped sum splits at the `takeWhile`/`dropWhile` boundary. -/
theorem sum_takeWhile_add_dropWhile {α : Type} (f : α → ℚ) (p : α → Bool)
    (l : List α) :
    ((l.takeWhile p).map f).sum + ((l.dropWhile p).map f).sum
      = (l.map f).sum := by
  conv_rhs => rw [← List.takeWhile_append_dropWhile p l]
  rw [List.map_append, List.sum_append]

/-- Pruning never changes the component id. -/
theorem prune_component_id (s : TimeSpentWindowed) (ws : ℚ) (b : Bool) :
    (s.prune ws b).component_id = s.component_id := by
  simp only [TimeSpentWindowed.prune]
  split <;> rfl

/-- After a prune, the deque holds exactly the `dropWhile` suffix. -/
theorem prune_events (s : TimeSpentWindowed) (ws : ℚ) (b : Bool) :
    (s.prune ws b).events
      = s.events.dropWhile (fun e => decide (e.at_ ≤ ws)) := by
  simp only [TimeSpentWindowed.prune]
  split <;> simp [drop_length_takeWhile]

/-- With `update_prev_spent`, a prune subtracts exactly the pruned total
(also when that total is 0 and the source skips the subtraction). -/
theorem prune_prev_spent (s : TimeSpentWindowed) (ws : ℚ) :
    (s.prune ws true).prev_spent
      = s.prev_spent
        - ((s.events.takeWhile (fun e => decide (e.at_ ≤ ws))).map
            DomainEvent.elapsed).sum := by
  by_cases hz : ((s.events.takeWhile (fun e => decide (e.at_ ≤ ws))).map
      DomainEvent.elapsed).sum = 0 <;>
    simp [TimeSpentWindowed.prune, hz]

/-- Source order of the checks in `_is_event_relevant`: component and name
first, then the window bound. -/
theorem is_event_relevant_eq (s : TimeSpentWindowed) (ws : ℚ)
    (d : DomainEvent) :
    s.is_event_relevant ws d
      = (matchesB s.component_id d && decide (ws ≤ d.at_)) := rfl

/-- Every event appended in a valid history happens strictly before the
query time. -/
theorem appendedEvents_lt (ws : ℚ → ℚ) (T : ℚ) :
    ∀ (acts : List AggAct) (t : ℚ), aggActsOK ws T t acts = true →
      ∀ e ∈ appendedEvents acts, e.at_ < T
  | [], _, _, _, he => absurd he (List.not_mem_nil _)
  | .append e :: rest, t, hok, x, hx => by
      simp only [aggActsOK, Bool.and_eq_true, decide_eq_true_eq] at hok
      rcases List.mem_cons.mp hx with hx | hx
      · subst hx
        exact hok.1.1.1.2
      · exact appendedEvents_lt ws T rest e.at_ hok.2 x hx
  | .prune u :: rest, t, hok, x, hx => by
      simp only [aggActsOK, Bool.and_eq_true, decide_eq_true_eq] at hok
      exact appendedEvents_lt ws T rest u hok.2 x hx

/-- The running invariant of one aggregator over a valid history: the
component id never changes, the deque stays sorted by timestamp and
bounded by the current time, `prev_spent` is exactly the sum of the
deque's `elapsed` fields, and the part of the deque past `window_start T`
is exactly the matching appended events past `window_start T`. -/
theorem runAgg_inv (ws : ℚ → ℚ) (T : ℚ) :
    ∀ (acts : List AggAct) (s : TimeSpentWindowed) (t : ℚ),
      aggActsOK ws T t acts = true →
      s.events.Pairwise (fun a b => a.at_ ≤ b.at_) →
      (∀ x ∈ s.events, x.at_ ≤ t) →
      s.prev_spent = ((s.events.map DomainEvent.elapsed)).sum →
      (runAgg ws s acts).component_id = s.component_id
      ∧ (runAgg ws s acts).events.Pairwise (fun a b => a.at_ ≤ b.at_)
      ∧ (∀ x ∈ (runAgg ws s acts).events, x.at_ ≤ aggEndTime t acts)
      ∧ (runAgg ws s acts).prev_spent
          = (((runAgg ws s acts).events.map DomainEvent.elapsed)).sum
      ∧ (runAgg ws s acts).events.filter (fun e => decide (ws T < e.at_))
          = s.events.filter (fun e => decide (ws T < e.at_))
            ++ (appendedEvents acts).filter
                (fun e => matchesB s.component_id e && decide (ws T < e.at_))
  | [], s, t, _, hpw, hbd, hsum =>
      ⟨rfl, hpw, hbd, hsum, by simp [runAgg, appendedEvents]⟩
  | .append e :: rest, s, t, hok, hpw, hbd, hsum => by
      simp only [aggActsOK, Bool.and_eq_true, decide_eq_true_eq] at hok
      obtain ⟨⟨⟨⟨hte, heT⟩, hwse⟩, hwsT⟩, hrest⟩ := hok
      have hrun : runAgg ws s (.append e :: rest)
          = runAgg ws (s.on_new_event (ws e.at_) e) rest := rfl
      by_cases hm : matchesB s.component_id e = true
      · have hrel : s.is_event_relevant (ws e.at_) e = true := by
          rw [is_event_relevant_eq]
          simp [hm, hwse]
        have hs' : s.on_new_event (ws e.at_) e
            = { s with
                events := s.events ++ [e]
                prev_spent := s.prev_spent + e.elapsed } := by
          simp [TimeSpentWindowed.on_new_event, hrel]
        have hpw' : (s.events ++ [e]).Pairwise (fun a b => a.at_ ≤ b.at_) :=
          List.pairwise_append.mpr
            ⟨hpw, List.pairwise_singleton _ _,
              fun x hx y hy => by
                rcases List.mem_singleton.mp hy with rfl
                exact le_trans (hbd x hx) hte⟩
        have hbd' : ∀ x ∈ s.events ++ [e], x.at_ ≤ e.at_ := by
          intro x hx
          rcases List.mem_append.mp hx with hx | hx
          · exact le_trans (hbd x hx) hte
          · rcases List.mem_singleton.mp hx with rfl
            exact le_refl _
        have hsum' : s.prev_spent + e.elapsed
            = (((s.events ++ [e]).map DomainEvent.elapsed)).sum := by
          simp [hsum]
        have ih := runAgg_inv ws T rest (s.on_new_event (ws e.at_) e) e.at_
          hrest (by rw [hs']; exact hpw') (by rw [hs']; exact hbd')
          (by rw [hs']; exact hsum')
        obtain ⟨ih1, ih2, ih3, ih4, ih5⟩ := ih
        have hcid : (s.on_new_event (ws e.at_) e).component_id
            = s.component_id := by rw [hs']
        refine ⟨by rw [hrun, ih1, hcid], by rw [hrun]; exact ih2,
          by rw [hrun]; exact ih3, by rw [hrun]; exact ih4, ?_⟩
        rw [hrun, ih5, hcid, hs']
        simp only [appendedEvents, List.filter_append, List.filter_cons, hm,
          Bool.true_and, List.append_assoc]
        by_cases hq : decide (ws T < e.at_) = true <;> simp [hq]
      · have hrel : s.is_event_relevant (ws e.at_) e = false := by
          rw [is_event_relevant_eq]
          simp [hm]
        have hs' : s.on_new_event (ws e.at_) e = s := by
          simp [TimeSpentWindowed.on_new_event, hrel]
        have ih := runAgg_inv ws T rest (s.on_new_event (ws e.at_) e) e.at_
          hrest (by rw [hs']; exact hpw)
          (by rw [hs']; exact fun x hx => le_trans (hbd x hx) hte)
          (by rw [hs']; exact hsum)
        obtain ⟨ih1, ih2, ih3, ih4, ih5⟩ := ih
        refine ⟨by rw [hrun, ih1, hs'], by rw [hrun]; exact ih2,
          by rw [hrun]; exact ih3, by rw [hrun]; exact ih4, ?_⟩
        rw [hrun, ih5, hs']
        simp [appendedEvents, List.filter_cons, hm]
  | .prune u :: rest, s, t, hok, hpw, hbd, hsum => by
      simp only [aggActsOK, Bool.and_eq_true, decide_eq_true_eq] at hok
      obtain ⟨⟨⟨htu, huT⟩, hwsu⟩, hrest⟩ := hok
      have hrun : runAgg ws s (.prune u :: rest)
          = runAgg ws (s.prune (ws u) true) rest := rfl
      have hev : (s.prune (ws u) true).events
          = s.events.dropWhile (fun e => decide (e.at_ ≤ ws u)) :=
        prune_events s (ws u) true
      have hsub :
          (s.events.dropWhile (fun e => decide (e.at_ ≤ ws u))).Sublist
            s.events := List.dropWhile_sublist _
      have hpw' : (s.prune (ws u) true).events.Pairwise
          (fun a b => a.at_ ≤ b.at_) := by
        rw [hev]
        exact hpw.sublist hsub
      have hbd' : ∀ x ∈ (s.prune (ws u) true).events, x.at_ ≤ u := by
        intro x hx
        rw [hev] at hx
        exact le_trans (hbd x (hsub.subset hx)) htu
      have hdsorted : s.events.Pairwise
          (fun a b => decide (b.at_ ≤ ws u) = true
            → decide (a.at_ ≤ ws u) = true) :=
        hpw.imp fun hab hb =>
          decide_eq_true (le_trans hab (of_decide_eq_true hb))
      have hdw : s.events.dropWhile (fun e => decide (e.at_ ≤ ws u))
          = s.events.filter (fun e => !decide (e.at_ ≤ ws u)) :=
        dropWhile_eq_filter_of_sorted _ _ hdsorted
      have hsum' : (s.prune (ws u) true).prev_spent
          = (((s.prune (ws u) true).events.map DomainEvent.elapsed)).sum := by
        rw [prune_prev_spent, hev, hsum]
        have hsplit := sum_takeWhile_add_dropWhile DomainEvent.elapsed
          (fun e => decide (e.at_ ≤ ws u)) s.events
        linarith
      have ih := runAgg_inv ws T rest (s.prune (ws u) true) u hrest hpw'
        hbd' hsum'
      obtain ⟨ih1, ih2, ih3, ih4, ih5⟩ := ih
      have hcid := prune_component_id s (ws u) true
      refine ⟨by rw [hrun, ih1, hcid], by rw [hrun]; exact ih2,
        by rw [hrun]; exact ih3, by rw [hrun]; exact ih4, ?_⟩
      rw [hrun, ih5, hcid, hev, hdw, List.filter_filter]
      have hpred : ∀ x ∈ s.events,
          (decide (ws T < x.at_) && !decide (x.at_ ≤ ws u))
            = decide (ws T < x.at_) := by
        intro x _
        by_cases hx : ws T < x.at_
        · have : ¬ x.at_ ≤ ws u := by
            intro hc
            exact absurd (lt_of_lt_of_le hx (le_trans hc hwsu)) (lt_irrefl _)
          simp [hx, this]
        · simp [hx]
      rw [List.filter_congr hpred]
      simp [appendedEvents]

/-- C1, amended: for every aggregator instance, every valid history of
appended events and prunes, and every query time `T`, the query — a lazy
prune at `window_start T`, then `prev_spent` plus the passed-in current
open-period elapsed — equals that current open-period elapsed plus the
exact sum of `elapsed` over appended events with matching component id,
name `stopped` or `manually_accounted_time`, and timestamp strictly
between `window_start T` (exclusive: boundary events are pruned) and
`T`. -/
theorem window_query_exact (cid : String) (ws : ℚ → ℚ) (T cur t0 : ℚ)
    (acts : List AggAct) (hok : aggActsOK ws T t0 acts = true) :
    (runAgg ws (TimeSpentWindowed.mk0 cid) acts).query (ws T) cur
      = cur + codeWindowSum cid ws T acts := by
  obtain ⟨h1, h2, h3, h4, h5⟩ := runAgg_inv ws T acts
    (TimeSpentWindowed.mk0 cid) t0 hok (by simp [TimeSpentWindowed.mk0])
    (by simp [TimeSpentWindowed.mk0]) (by simp [TimeSpentWindowed.mk0])
  have hq : (runAgg ws (TimeSpentWindowed.mk0 cid) acts).query (ws T) cur
      = ((runAgg ws (TimeSpentWindowed.mk0 cid) acts).prune (ws T)
          true).prev_spent + cur := rfl
  have hdsorted : (runAgg ws (TimeSpentWindowed.mk0 cid) acts).events.Pairwise
      (fun a b => decide (b.at_ ≤ ws T) = true
        → decide (a.at_ ≤ ws T) = true) :=
    h2.imp fun hab hb => decide_eq_true (le_trans hab (of_decide_eq_true hb))
  have hprev : ((runAgg ws (TimeSpentWindowed.mk0 cid) acts).prune (ws T)
      true).prev_spent
      = (((runAgg ws (TimeSpentWindowed.mk0 cid) acts).events.filter
          (fun e => decide (ws T < e.at_))).map DomainEvent.elapsed).sum := by
    rw [prune_prev_spent, h4]
    have hsplit := sum_takeWhile_add_dropWhile DomainEvent.elapsed
      (fun e => decide (e.at_ ≤ ws T))
      (runAgg ws (TimeSpentWindowed.mk0 cid) acts).events
    have hdw : (runAgg ws (TimeSpentWindowed.mk0 cid) acts).events.dropWhile
        (fun e => decide (e.at_ ≤ ws T))
        = (runAgg ws (TimeSpentWindowed.mk0 cid) acts).events.filter
            (fun e => !decide (e.at_ ≤ ws T)) :=
      dropWhile_eq_filter_of_sorted _ _ hdsorted
    have hnot : (runAgg ws (TimeSpentWindowed.mk0 cid) acts).events.filter
        (fun e => !decide (e.at_ ≤ ws T))
        = (runAgg ws (TimeSpentWindowed.mk0 cid) acts).events.filter
            (fun e => decide (ws T < e.at_)) := by
      refine List.filter_congr fun x _ => ?_
      by_cases hx : x.at_ ≤ ws T
      · simp [hx, not_lt.mpr hx]
      · simp [hx, not_le.mp hx]
    rw [← hnot, ← hdw]
    linarith
  have hfc : (appendedEvents acts).filter
      (fun e => matchesB cid e && decide (ws T < e.at_))
      = (appendedEvents acts).filter
          (fun e => matchesB cid e && decide (ws T < e.at_)
            && decide (e.at_ < T)) := by
    refine List.filter_congr fun x hx => ?_
    have hxT := appendedEvents_lt ws T acts t0 hok x hx
    simp [hxT]
  rw [hq, hprev, h5]
  simp only [TimeSpentWindowed.mk0, List.filter_nil, List.nil_append]
  rw [hfc, codeWindowSum]
  ring

/-- Witness for `window_query_exact`: one matching event at time 1 inside
the constant-zero window, queried at `T = 2` with a current open period
of 3 seconds. -/
theorem window_query_exact_witness :
    aggActsOK (fun _ => 0) 2 0 [AggAct.append ⟨"c", "stopped", 1, 5⟩] = true
    ∧ (runAgg (fun _ => 0) (TimeSpentWindowed.mk0 "c")
        [AggAct.append ⟨"c", "stopped", 1, 5⟩]).query 0 3
      = 3 + codeWindowSum "c" (fun _ => 0) 2
          [AggAct.append ⟨"c", "stopped", 1, 5⟩] :=
  ⟨by decide,
    window_query_exact "c" (fun _ => 0) 2 3 0
      [AggAct.append ⟨"c", "stopped", 1, 5⟩] (by decide)⟩

/-- Counterexample to C1 as stated: a single matching event timestamped
exactly at `window_start` is admitted by `on_new_event` (which adds its 5
seconds to `prev_spent`) but evicted and subtracted again by the lazy
prune inside the query, so the query returns 0 while the claimed
inclusive-boundary sum is 5 — boundary events are not counted. -/
theorem window_query_boundary_counterexample :
    (runAgg (fun _ => 0) (TimeSpentWindowed.mk0 "c")
        [AggAct.append ⟨"c", "stopped", 0, 5⟩]).query 0 0 = 0
    ∧ claimedWindowSum "c" (fun _ => 0) 1
        [AggAct.append ⟨"c", "stopped", 0, 5⟩] = 5
    ∧ aggActsOK (fun _ => 0) 1 0 [AggAct.append ⟨"c", "stopped", 0, 5⟩] = true
    ∧ (runAgg (fun _ => 0) (TimeSpentWindowed.mk0 "c")
        [AggAct.append ⟨"c", "stopped", 0, 5⟩]).query 0 0
      ≠ claimedWindowSum "c" (fun _ => 0) 1
          [AggAct.append ⟨"c", "stopped", 0, 5⟩] := by
  refine ⟨?_, ?_, by decide, ?_⟩ <;>
    norm_num [TimeSpentWindowed.query, TimeSpentWindowed.prune, runAgg,
      aggStep, TimeSpentWindowed.on_new_event, TimeSpentWindowed.is_event_relevant,
      TimeSpentWindowed.mk0, claimedWindowSum, appendedEvents, matchesB]

end Pymodoro
